import Mathlib

/-!
Verification of the signed-and-encrypted opaque token codec of
`src/services/token/token-router.ts` (the `/token/encode` and `/token/decode`
route handlers).

JavaScript strings are modelled as `List Char`; raw byte buffers as
`List Nat` (each entry a byte, `< 256` where it matters).  The deterministic
platform codecs that the handlers call (`btoa`, `atob`,
`Buffer.from(_, 'base64')`, `Buffer.prototype.toString('base64')`,
`Buffer.from(_, 'hex')`, `Buffer.prototype.toString('hex')`) are implemented
concretely below.  The genuinely cryptographic or host-language primitives
(`JSON.stringify` / `JSON.parse`, HMAC-SHA256 with the process signature key,
AES-256-CBC with the process encryption key composed with UTF-8
encoding/decoding) are abstracted as the fields of a `Prims` record; theorems
state the contracts they rely on as explicit hypotheses.
-/

/-- The standard base64 alphabet: sextet value to character. -/
def sextetToChar (s : Nat) : Char :=
  if s < 26 then Char.ofNat (65 + s)
  else if s < 52 then Char.ofNat (97 + (s - 26))
  else if s < 62 then Char.ofNat (48 + (s - 52))
  else if s = 62 then '+'
  else '/'

/-- Inverse of the base64 alphabet; `none` for a character outside it. -/
def charToSextet (c : Char) : Option Nat :=
  if 65 ≤ c.toNat ∧ c.toNat ≤ 90 then some (c.toNat - 65)
  else if 97 ≤ c.toNat ∧ c.toNat ≤ 122 then some (26 + (c.toNat - 97))
  else if 48 ≤ c.toNat ∧ c.toNat ≤ 57 then some (52 + (c.toNat - 48))
  else if c = '+' then some 62
  else if c = '/' then some 63
  else none

/-- Membership in the base64 alphabet (excludes `=` padding). -/
def isB64Char (c : Char) : Bool := (charToSextet c).isSome

/-- Chop a byte list into base64 sextets (the bit-regrouping step shared by
`btoa` and `Buffer.prototype.toString('base64')`). -/
def bytesToSextets : List Nat → List Nat
  | b1 :: b2 :: b3 :: rest =>
      b1 / 4 :: ((b1 % 4) * 16 + b2 / 16) :: ((b2 % 16) * 4 + b3 / 64) :: (b3 % 64) ::
        bytesToSextets rest
  | [b1, b2] => [b1 / 4, (b1 % 4) * 16 + b2 / 16, (b2 % 16) * 4]
  | [b1] => [b1 / 4, (b1 % 4) * 16]
  | [] => []

/-- Reassemble bytes from base64 sextets, discarding leftover bits; a single
trailing sextet contributes no byte (forgiving decode). -/
def sextetsToBytes : List Nat → List Nat
  | s1 :: s2 :: s3 :: s4 :: rest =>
      (s1 * 4 + s2 / 16) :: ((s2 % 16) * 16 + s3 / 4) :: ((s3 % 4) * 64 + s4) ::
        sextetsToBytes rest
  | [s1, s2, s3] => [s1 * 4 + s2 / 16, (s2 % 16) * 16 + s3 / 4]
  | [s1, s2] => [s1 * 4 + s2 / 16]
  | [_] => []
  | [] => []

/-- The `=` padding appended by standard base64 encoders for a byte count `n`. -/
def base64Pad (n : Nat) : List Char :=
  if n % 3 = 1 then ['=', '=']
  else if n % 3 = 2 then ['=']
  else []

/-- `Buffer.prototype.toString('base64')`: standard padded base64 of a byte list. -/
def toBase64 (bs : List Nat) : List Char :=
  (bytesToSextets bs).map sextetToChar ++ base64Pad bs.length

/-- `Buffer.from(s, 'base64')`: Node's forgiving base64 decoder — characters
outside the alphabet (including `=`) are skipped, leftover bits dropped. -/
def bufferFromBase64 (cs : List Char) : List Nat :=
  sextetsToBytes (cs.filterMap charToSextet)

/-- `btoa`: base64 of the string's code units; throws (here `none`) as soon as
some code unit exceeds 255. -/
def btoa (cs : List Char) : Option (List Char) :=
  if cs.all (fun c => c.toNat ≤ 255) then some (toBase64 (cs.map Char.toNat))
  else none

/-- ASCII whitespace stripped by `atob` (forgiving-base64 preprocessing). -/
def isJsWhitespace (c : Char) : Bool :=
  c = ' ' ∨ c = '\t' ∨ c = '\n' ∨ c = '\r' ∨ c = '\x0c'

/-- Remove up to two leading `=` characters (helper for `dropTrailingEq`,
operating on the reversed list). -/
def dropLeadEq2 : List Char → List Char
  | [] => []
  | c :: r =>
      if c = '=' then
        match r with
        | [] => []
        | c2 :: r2 => if c2 = '=' then r2 else c2 :: r2
      else c :: r

/-- Remove up to two trailing `=` padding characters. -/
def dropTrailingEq (cs : List Char) : List Char :=
  (dropLeadEq2 cs.reverse).reverse

/-- `atob`: strict (WHATWG forgiving-base64) decoder — strips ASCII whitespace,
removes up to two trailing `=` when the length is a multiple of four, then
fails on a length `≡ 1 (mod 4)` or on any character outside the alphabet. -/
def atob (cs0 : List Char) : Option (List Char) :=
  let cs1 := cs0.filter (fun c => !isJsWhitespace c)
  let cs := if cs1.length % 4 = 0 then dropTrailingEq cs1 else cs1
  if cs.length % 4 = 1 then none
  else if cs.all isB64Char then
    some ((sextetsToBytes (cs.filterMap charToSextet)).map Char.ofNat)
  else none

/-- Value of one hex digit (both cases accepted), `none` otherwise. -/
def hexDigitToNat (c : Char) : Option Nat :=
  if 48 ≤ c.toNat ∧ c.toNat ≤ 57 then some (c.toNat - 48)
  else if 97 ≤ c.toNat ∧ c.toNat ≤ 102 then some (10 + (c.toNat - 97))
  else if 65 ≤ c.toNat ∧ c.toNat ≤ 70 then some (10 + (c.toNat - 65))
  else none

/-- `Buffer.from(s, 'hex')`: decode hex digit pairs, stopping at the first
invalid pair or odd leftover digit. -/
def bufferFromHex : List Char → List Nat
  | c1 :: c2 :: rest =>
      match hexDigitToNat c1, hexDigitToNat c2 with
      | some h, some l => (h * 16 + l) :: bufferFromHex rest
      | _, _ => []
  | _ => []

/-- Lower-case hex digit for a value `< 16`. -/
def natToHexDigit (n : Nat) : Char :=
  if n < 10 then Char.ofNat (48 + n) else Char.ofNat (97 + (n - 10))

/-- `Buffer.prototype.toString('hex')`: two lower-case digits per byte. -/
def toHex : List Nat → List Char
  | [] => []
  | b :: rest => natToHexDigit (b / 16) :: natToHexDigit (b % 16) :: toHex rest

/-- JavaScript `String.prototype.split('.')`: the list of `.`-separated
segments (always non-empty; `""` splits to `[""]`). -/
def splitOnDot : List Char → List (List Char)
  | [] => [[]]
  | c :: rest =>
      if c = '.' then [] :: splitOnDot rest
      else
        match splitOnDot rest with
        | [] => [[c]]
        | s :: ss => (c :: s) :: ss

/-- Modelled from the spec: the text of the plaintext before the first `.`
delimiter ("Split the decrypted plaintext on the first `.` delimiter into
`encoded` and `signature`").  Stated for comparison with the source's
`split('.')`-and-index behaviour (`splitOnDot`). -/
def beforeFirstDot : List Char → List Char
  | [] => []
  | c :: rest => if c = '.' then [] else c :: beforeFirstDot rest

/-- Modelled from the spec: the remainder of the plaintext after the first `.`
delimiter (`none` when the plaintext has no `.` at all), the spec's reading of
the `signature` part. -/
def afterFirstDot : List Char → Option (List Char)
  | [] => none
  | c :: rest => if c = '.' then some rest else afterFirstDot rest

/-- Outcome of the `/token/decode` handler.  `success` carries the parsed
payload (HTTP 200); the three error constructors are the `RouterError`
messages, all raised with `StatusCode.ClientErrorBadRequest`. -/
inductive DecodeResult (P : Type) where
  | success (payload : P)
  | missingParams
  | invalidParams
  | unauthorized
deriving DecidableEq

/-- The HTTP status the handler responds with: `StatusCode.SuccessOK` (200) on
success, `StatusCode.ClientErrorBadRequest` (400) for every `RouterError`. -/
def httpStatus {P : Type} : DecodeResult P → Nat
  | .success _ => 200
  | _ => 400

/-- The host-language / cryptographic primitives the route handlers call,
abstracted over the payload type `P`.  `hmacSig` is
`crypto.createHmac('sha256', Config.SECRET_SIGNATURE_KEY)` followed by
`digest('base64')`; `encryptAes` / `decryptAes` are AES-256-CBC under
`Config.SECRET_ENCRYPTION_KEY` composed with UTF-8 string encoding/decoding
(`decryptAes` is `none` when `decipher.update`/`final` throws, e.g. on bad
padding or a malformed ciphertext length). -/
structure Prims (P : Type) where
  stringifyJson : P → List Char
  parseJson : List Char → Option P
  hmacSig : List Nat → List Char
  encryptAes : List Char → List Nat → List Nat
  decryptAes : List Nat → List Nat → Option (List Char)

/-- Lines 28–31 of the encode handler: the HMAC is fed
`Buffer.from(encoded, 'base64')` — the *decoded bytes* of the base64 text. -/
def encodeSignature {P : Type} (pr : Prims P) (encoded : List Char) : List Char :=
  pr.hmacSig (bufferFromBase64 encoded)

/-- Line 33 of the encode handler: `token = encoded + '.' + signature`. -/
def signedBlock {P : Type} (pr : Prims P) (encoded : List Char) : List Char :=
  encoded ++ '.' :: encodeSignature pr encoded

/-- The `/token/encode` handler: serialize, `btoa`, sign, join with `.`,
encrypt under the given IV, and return `(token, context)` as
`(base64 ciphertext, hex iv)`.  `none` models the uncaught exception thrown
by `btoa` on a non-latin1 serialization (the handler has no try/catch). -/
def encode {P : Type} (pr : Prims P) (body : P) (iv : List Nat) :
    Option (List Char × List Char) :=
  match btoa (pr.stringifyJson body) with
  | none => none
  | some encoded =>
      some (toBase64 (pr.encryptAes (signedBlock pr encoded) iv), toHex iv)

/-- Lines 93–96 of the decode handler: the recomputed HMAC, again over
`Buffer.from(encoded, 'base64')`. -/
def decodeCalculatedSignature {P : Type} (pr : Prims P) (encoded : List Char) : List Char :=
  pr.hmacSig (bufferFromBase64 encoded)

/-- Lines 85–105 of the decode handler, from the successfully decrypted
plaintext on: split on `.`, take segments `[0]` and `[1]`, reject an empty
`encoded` (`InvalidParams`), compare the signature slot with the recomputed
HMAC (`Unauthorized` on mismatch, with an absent slot never equal), then
`atob` + `JSON.parse` (failures land in the catch-all `InvalidParams`). -/
def processPlaintext {P : Type} (pr : Prims P) (decrypted : List Char) : DecodeResult P :=
  let parts := splitOnDot decrypted
  let encoded := parts.headD []
  let signature := parts[1]?
  if encoded = [] then .invalidParams
  else if signature ≠ some (decodeCalculatedSignature pr encoded) then .unauthorized
  else
    match atob encoded with
    | none => .invalidParams
    | some json =>
        match pr.parseJson json with
        | none => .invalidParams
        | some payload => .success payload

/-- Modelled from the spec: the plaintext-processing stage exactly as the
spec words the split — `encoded` is the text before the first `.` and
`signature` is the whole remainder after the first `.` — with every other
step identical to `processPlaintext`.  Used to compare the spec's split
semantics against the source's. -/
def processPlaintextSpecSplit {P : Type} (pr : Prims P) (decrypted : List Char) :
    DecodeResult P :=
  let encoded := beforeFirstDot decrypted
  let signature := afterFirstDot decrypted
  if encoded = [] then .invalidParams
  else if signature ≠ some (decodeCalculatedSignature pr encoded) then .unauthorized
  else
    match atob encoded with
    | none => .invalidParams
    | some json =>
        match pr.parseJson json with
        | none => .invalidParams
        | some payload => .success payload

/-- The `/token/decode` handler.  `tokenField` / `contextField` are
`req.body.token` / `req.body.context` (`none` = absent); the JavaScript
falsiness test `!req.body.token || !req.body.context` rejects an absent or
empty string with `MissingParams` before anything else runs.  Inside the
`try`, `createDecipheriv` throws on an IV that is not 16 bytes and
decryption failures surface as `none` from `decryptAes`; both are caught as
`InvalidParams`. -/
def decode {P : Type} (pr : Prims P) (tokenField contextField : Option (List Char)) :
    DecodeResult P :=
  match tokenField, contextField with
  | some t, some c =>
      if t = [] ∨ c = [] then .missingParams
      else
        let encrypted := bufferFromBase64 t
        let iv := bufferFromHex c
        if iv.length ≠ 16 then .invalidParams
        else
          match pr.decryptAes encrypted iv with
          | none => .invalidParams
          | some decrypted => processPlaintext pr decrypted
  | _, _ => .missingParams

/-- Concrete instantiations of the abstract primitives, used to evaluate the
handlers on explicit inputs: the payload type is the serialized text itself
(`stringifyJson = id`, `parseJson = some`), the HMAC is the constant string
`MAC`, encryption is the constant byte `7`, and decryption is the supplied
function. -/
def mkPrims (dec : List Nat → List Nat → Option (List Char)) : Prims (List Char) where
  stringifyJson := id
  parseJson := some
  hmacSig := fun _ => String.data "MAC"
  encryptAes := fun _ _ => [7]
  decryptAes := dec

/-! ### Lemmas about the concrete codecs -/

theorem charToSextet_sextetToChar : ∀ s, s < 64 → charToSextet (sextetToChar s) = some s := by
  decide

theorem sextetToChar_props : ∀ s, s < 64 →
    (isB64Char (sextetToChar s) = true ∧ sextetToChar s ≠ '=' ∧
      isJsWhitespace (sextetToChar s) = false ∧ sextetToChar s ≠ '.') := by
  decide

theorem charOfNat_toNat (c : Char) (h : c.toNat ≤ 255) : Char.ofNat c.toNat = c := by
  apply Char.eq_of_val_eq
  have hv : Nat.isValidChar c.toNat := Or.inl (by omega)
  simp only [Char.ofNat, hv, dite_true, Char.ofNatAux]
  apply UInt32.eq_of_toBitVec_eq
  apply BitVec.eq_of_toNat_eq
  simp [Char.toNat, UInt32.toNat]

theorem sextetsToBytes_bytesToSextets (bs : List Nat) (h : ∀ b ∈ bs, b < 256) :
    sextetsToBytes (bytesToSextets bs) = bs := by
  induction bs using bytesToSextets.induct with
  | case1 b1 b2 b3 rest ih =>
    have h1 : b1 < 256 := h b1 (by simp)
    have h2 : b2 < 256 := h b2 (by simp)
    have h3 : b3 < 256 := h b3 (by simp)
    have ih' := ih (fun b hb => h b (by simp [hb]))
    simp only [bytesToSextets, sextetsToBytes, ih', List.cons.injEq]
    refine ⟨by omega, by omega, by omega, trivial⟩
  | case2 b1 b2 =>
    have h1 : b1 < 256 := h b1 (by simp)
    have h2 : b2 < 256 := h b2 (by simp)
    simp only [bytesToSextets, sextetsToBytes, List.cons.injEq]
    refine ⟨by omega, by omega, trivial⟩
  | case3 b1 =>
    have h1 : b1 < 256 := h b1 (by simp)
    simp only [bytesToSextets, sextetsToBytes, List.cons.injEq]
    refine ⟨by omega, trivial⟩
  | case4 => rfl

theorem bytesToSextets_lt (bs : List Nat) (h : ∀ b ∈ bs, b < 256) :
    ∀ s ∈ bytesToSextets bs, s < 64 := by
  induction bs using bytesToSextets.induct with
  | case1 b1 b2 b3 rest ih =>
    have h1 : b1 < 256 := h b1 (by simp)
    have h2 : b2 < 256 := h b2 (by simp)
    have h3 : b3 < 256 := h b3 (by simp)
    have ih' := ih (fun b hb => h b (by simp [hb]))
    simp only [bytesToSextets, List.mem_cons]
    rintro s (rfl | rfl | rfl | rfl | hs)
    · omega
    · omega
    · omega
    · omega
    · exact ih' s hs
  | case2 b1 b2 =>
    have h1 : b1 < 256 := h b1 (by simp)
    have h2 : b2 < 256 := h b2 (by simp)
    simp only [bytesToSextets, List.mem_cons]
    rintro s (rfl | rfl | rfl | hs)
    · omega
    · omega
    · omega
    · simp at hs
  | case3 b1 =>
    have h1 : b1 < 256 := h b1 (by simp)
    simp only [bytesToSextets, List.mem_cons]
    rintro s (rfl | rfl | hs)
    · omega
    · omega
    · simp at hs
  | case4 => simp [bytesToSextets]

theorem length_bytesToSextets_pad (bs : List Nat) :
    ((bytesToSextets bs).length + (base64Pad bs.length).length) % 4 = 0 := by
  induction bs using bytesToSextets.induct with
  | case1 b1 b2 b3 rest ih =>
    simp only [bytesToSextets, List.length_cons, base64Pad] at ih ⊢
    have h3 : (rest.length + 1 + 1 + 1) % 3 = rest.length % 3 := by omega
    simp only [h3]
    omega
  | case2 b1 b2 => simp [bytesToSextets, base64Pad]
  | case3 b1 => simp [bytesToSextets, base64Pad]
  | case4 => simp [bytesToSextets, base64Pad]

theorem base64Pad_length_le (n : Nat) : (base64Pad n).length ≤ 2 := by
  unfold base64Pad
  split_ifs <;> simp

theorem filterMap_charToSextet_map (xs : List Nat) (h : ∀ s ∈ xs, s < 64) :
    (xs.map sextetToChar).filterMap charToSextet = xs := by
  induction xs with
  | nil => rfl
  | cons a l ih =>
    have ha := charToSextet_sextetToChar a (h a (by simp))
    simp [List.filterMap_cons, ha, ih (fun s hs => h s (by simp [hs]))]


theorem dropLeadEq2_no_eq (cs : List Char) (h : ∀ c ∈ cs, c ≠ '=') :
    dropLeadEq2 cs = cs := by
  cases cs with
  | nil => rfl
  | cons c r =>
    have hc : c ≠ '=' := h c (by simp)
    simp [dropLeadEq2, hc]

theorem dropTrailingEq_pad (body : List Char) (n : Nat) (hb : ∀ c ∈ body, c ≠ '=') :
    dropTrailingEq (body ++ base64Pad n) = body := by
  unfold dropTrailingEq base64Pad
  split_ifs with h1 h2
  · rw [List.reverse_append]
    show (dropLeadEq2 ('=' :: '=' :: body.reverse)).reverse = body
    simp [dropLeadEq2]
  · rw [List.reverse_append]
    show (dropLeadEq2 ('=' :: body.reverse)).reverse = body
    rcases hrev : body.reverse with _ | ⟨c, r⟩
    · have : body = [] := by simpa using congrArg List.reverse hrev
      subst this
      simp [dropLeadEq2]
    · have hc : c ≠ '=' := by
        apply hb
        have : c ∈ body.reverse := by simp [hrev]
        simpa using this
      have : dropLeadEq2 ('=' :: c :: r) = c :: r := by simp [dropLeadEq2, hc]
      rw [this, ← hrev, List.reverse_reverse]
  · simp only [List.append_nil]
    have : dropLeadEq2 body.reverse = body.reverse := by
      apply dropLeadEq2_no_eq
      intro c hc
      exact hb c (by simpa using hc)
    rw [this, List.reverse_reverse]

theorem char_eq_iff_toNat (a b : Char) : a = b ↔ a.toNat = b.toNat :=
  ⟨fun h => h ▸ rfl,
   fun h => Char.eq_of_val_eq (UInt32.eq_of_toBitVec_eq (BitVec.eq_of_toNat_eq h))⟩

theorem toBase64_members (bs : List Nat) (h : ∀ b ∈ bs, b < 256) :
    ∀ c ∈ toBase64 bs, (∃ s, s < 64 ∧ c = sextetToChar s) ∨ c = '=' := by
  intro c hc
  unfold toBase64 at hc
  rcases List.mem_append.mp hc with hm | hp
  · obtain ⟨s, hs, rfl⟩ := List.mem_map.mp hm
    exact Or.inl ⟨s, bytesToSextets_lt bs h s hs, rfl⟩
  · right
    unfold base64Pad at hp
    split_ifs at hp <;> simp_all

theorem atob_toBase64_map (cs : List Char) (h : ∀ c ∈ cs, c.toNat ≤ 255) :
    atob (toBase64 (cs.map Char.toNat)) = some cs := by
  have hblt : ∀ b ∈ cs.map Char.toNat, b < 256 := by
    intro b hb
    obtain ⟨c, hc, rfl⟩ := List.mem_map.mp hb
    have := h c hc
    omega
  have hslt : ∀ s ∈ bytesToSextets (cs.map Char.toNat), s < 64 :=
    bytesToSextets_lt _ hblt
  have hA : (toBase64 (cs.map Char.toNat)).filter (fun c => !isJsWhitespace c)
      = toBase64 (cs.map Char.toNat) := by
    rw [List.filter_eq_self]
    intro c hc
    rcases toBase64_members _ hblt c hc with ⟨s, hs, rfl⟩ | rfl
    · simp [(sextetToChar_props s hs).2.2.1]
    · decide
  have hB : (toBase64 (cs.map Char.toNat)).length % 4 = 0 := by
    have hlen := length_bytesToSextets_pad (cs.map Char.toNat)
    simp only [List.length_map] at hlen
    simp only [toBase64, List.length_append, List.length_map]
    omega
  have hnoeq : ∀ c ∈ (bytesToSextets (cs.map Char.toNat)).map sextetToChar, c ≠ '=' := by
    intro c hc
    obtain ⟨s, hs, rfl⟩ := List.mem_map.mp hc
    exact (sextetToChar_props s (hslt s hs)).2.1
  have hC : dropTrailingEq (toBase64 (cs.map Char.toNat))
      = (bytesToSextets (cs.map Char.toNat)).map sextetToChar := by
    unfold toBase64
    exact dropTrailingEq_pad _ _ hnoeq
  have hD : ((bytesToSextets (cs.map Char.toNat)).map sextetToChar).length % 4 ≠ 1 := by
    have h1 := length_bytesToSextets_pad (cs.map Char.toNat)
    have h2 := base64Pad_length_le (cs.map Char.toNat).length
    simp only [List.length_map] at h1 h2 ⊢
    omega
  have hE : ((bytesToSextets (cs.map Char.toNat)).map sextetToChar).all isB64Char = true := by
    rw [List.all_eq_true]
    intro c hc
    obtain ⟨s, hs, rfl⟩ := List.mem_map.mp hc
    exact (sextetToChar_props s (hslt s hs)).1
  have hF : ((bytesToSextets (cs.map Char.toNat)).map sextetToChar).filterMap charToSextet
      = bytesToSextets (cs.map Char.toNat) := filterMap_charToSextet_map _ hslt
  have hG : sextetsToBytes (bytesToSextets (cs.map Char.toNat)) = cs.map Char.toNat :=
    sextetsToBytes_bytesToSextets _ hblt
  simp only [atob, hA, hB, if_true, hC, hF, hG]
  rw [if_neg hD, if_pos hE]
  congr 1
  rw [List.map_map]
  have hmap : ∀ c ∈ cs, (Char.ofNat ∘ Char.toNat) c = c :=
    fun c hc => charOfNat_toNat c (h c hc)
  simpa using List.map_congr_left hmap

theorem btoa_eq_some (cs : List Char) (h : ∀ c ∈ cs, c.toNat ≤ 255) :
    btoa cs = some (toBase64 (cs.map Char.toNat)) := by
  unfold btoa
  rw [if_pos]
  rw [List.all_eq_true]
  intro c hc
  simpa using h c hc

theorem atob_btoa (cs : List Char) (h : ∀ c ∈ cs, c.toNat ≤ 255) :
    btoa cs >>= atob = some cs := by
  rw [btoa_eq_some cs h]
  simpa using atob_toBase64_map cs h

theorem bufferFromBase64_toBase64 (bs : List Nat) (h : ∀ b ∈ bs, b < 256) :
    bufferFromBase64 (toBase64 bs) = bs := by
  unfold bufferFromBase64 toBase64
  rw [List.filterMap_append]
  have hpad : (base64Pad bs.length).filterMap charToSextet = [] := by
    unfold base64Pad
    split_ifs <;> rfl
  rw [hpad, List.append_nil, filterMap_charToSextet_map _ (bytesToSextets_lt bs h)]
  exact sextetsToBytes_bytesToSextets bs h

theorem bytesToSextets_eq_nil (bs : List Nat) : bytesToSextets bs = [] ↔ bs = [] := by
  constructor
  · intro h
    cases bs with
    | nil => rfl
    | cons b1 r1 =>
      cases r1 with
      | nil => simp [bytesToSextets] at h
      | cons b2 r2 =>
        cases r2 with
        | nil => simp [bytesToSextets] at h
        | cons b3 r3 => simp [bytesToSextets] at h
  · rintro rfl
    rfl

theorem toBase64_eq_nil (bs : List Nat) : toBase64 bs = [] ↔ bs = [] := by
  unfold toBase64
  rw [List.append_eq_nil, List.map_eq_nil_iff, bytesToSextets_eq_nil]
  constructor
  · exact fun h => h.1
  · rintro rfl
    exact ⟨rfl, rfl⟩

theorem toBase64_no_dot (bs : List Nat) (h : ∀ b ∈ bs, b < 256) :
    '.' ∉ toBase64 bs := by
  intro hc
  rcases toBase64_members bs h '.' hc with ⟨s, hs, heq⟩ | heq
  · exact (sextetToChar_props s hs).2.2.2 heq.symm
  · simp at heq

theorem hexDigitToNat_natToHexDigit : ∀ n, n < 16 → hexDigitToNat (natToHexDigit n) = some n := by
  decide

theorem bufferFromHex_toHex (bs : List Nat) (h : ∀ b ∈ bs, b < 256) :
    bufferFromHex (toHex bs) = bs := by
  induction bs with
  | nil => rfl
  | cons b rest ih =>
    have hb : b < 256 := h b (by simp)
    have ih' := ih (fun x hx => h x (by simp [hx]))
    have h1 : hexDigitToNat (natToHexDigit (b / 16)) = some (b / 16) :=
      hexDigitToNat_natToHexDigit _ (by omega)
    have h2 : hexDigitToNat (natToHexDigit (b % 16)) = some (b % 16) :=
      hexDigitToNat_natToHexDigit _ (by omega)
    simp only [toHex, bufferFromHex, h1, h2, ih', List.cons.injEq]
    refine ⟨by omega, trivial⟩

theorem toHex_length (bs : List Nat) : (toHex bs).length = 2 * bs.length := by
  induction bs with
  | nil => rfl
  | cons b rest ih => simp [toHex, ih]; omega

theorem splitOnDot_ne_nil (cs : List Char) : splitOnDot cs ≠ [] := by
  cases cs with
  | nil => simp [splitOnDot]
  | cons c rest =>
    simp only [splitOnDot]
    split
    · simp
    · split <;> simp

theorem splitOnDot_no_dot (cs : List Char) (h : '.' ∉ cs) : splitOnDot cs = [cs] := by
  induction cs with
  | nil => rfl
  | cons c rest ih =>
    have hc : c ≠ '.' := fun heq => h (by simp [heq])
    have ih' := ih (fun hm => h (by simp [hm]))
    simp only [splitOnDot, if_neg hc, ih']

theorem splitOnDot_sep (a b : List Char) (ha : '.' ∉ a) :
    splitOnDot (a ++ '.' :: b) = a :: splitOnDot b := by
  induction a with
  | nil => simp [splitOnDot]
  | cons c a' ih =>
    have hc : c ≠ '.' := fun heq => ha (by simp [heq])
    have ih' := ih (fun hm => ha (by simp [hm]))
    simp only [List.cons_append, splitOnDot, if_neg hc]
    rw [List.append_eq, ih']

theorem splitOnDot_head (cs : List Char) :
    (splitOnDot cs).headD [] = beforeFirstDot cs := by
  induction cs with
  | nil => rfl
  | cons c rest ih =>
    simp only [splitOnDot, beforeFirstDot]
    split
    · simp
    · rcases hs : splitOnDot rest with _ | ⟨s, ss⟩
      · exact absurd hs (splitOnDot_ne_nil rest)
      · simp only [List.headD_cons]
        rw [hs] at ih
        simp only [List.headD_cons] at ih
        rw [ih]

theorem splitOnDot_second (cs : List Char) :
    (splitOnDot cs)[1]? = (afterFirstDot cs).map (fun r => (splitOnDot r).headD []) := by
  induction cs with
  | nil => rfl
  | cons c rest ih =>
    simp only [splitOnDot, afterFirstDot]
    split
    · rcases hs : splitOnDot rest with _ | ⟨s, ss⟩
      · exact absurd hs (splitOnDot_ne_nil rest)
      · simp [hs]
    · rcases hs : splitOnDot rest with _ | ⟨s, ss⟩
      · exact absurd hs (splitOnDot_ne_nil rest)
      · rw [hs] at ih
        simpa using ih

/-! ### Stage lemmas for the decode handler -/

theorem decode_missing {P : Type} (pr : Prims P) (t c : Option (List Char))
    (h : t = none ∨ t = some [] ∨ c = none ∨ c = some []) :
    decode pr t c = .missingParams := by
  rcases t with _ | t
  · rfl
  rcases c with _ | c
  · rfl
  rcases h with h | h | h | h
  · exact absurd h (by simp)
  · simp only [Option.some.injEq] at h
    subst h
    simp [decode]
  · exact absurd h (by simp)
  · simp only [Option.some.injEq] at h
    subst h
    simp [decode]

theorem decode_iv_bad {P : Type} (pr : Prims P) (t c : List Char)
    (ht : t ≠ []) (hc : c ≠ []) (hiv : (bufferFromHex c).length ≠ 16) :
    decode pr (some t) (some c) = .invalidParams := by
  simp only [decode]
  rw [if_neg (by simp [ht, hc]), if_pos hiv]

theorem decode_decrypt_none {P : Type} (pr : Prims P) (t c : List Char)
    (ht : t ≠ []) (hc : c ≠ []) (hiv : (bufferFromHex c).length = 16)
    (hd : pr.decryptAes (bufferFromBase64 t) (bufferFromHex c) = none) :
    decode pr (some t) (some c) = .invalidParams := by
  simp only [decode]
  rw [if_neg (by simp [ht, hc]), if_neg (by simp [hiv]), hd]

theorem decode_decrypt_some {P : Type} (pr : Prims P) (t c pt : List Char)
    (ht : t ≠ []) (hc : c ≠ []) (hiv : (bufferFromHex c).length = 16)
    (hd : pr.decryptAes (bufferFromBase64 t) (bufferFromHex c) = some pt) :
    decode pr (some t) (some c) = processPlaintext pr pt := by
  simp only [decode]
  rw [if_neg (by simp [ht, hc]), if_neg (by simp [hiv]), hd]

theorem processPlaintext_empty {P : Type} (pr : Prims P) (pt : List Char)
    (h : (splitOnDot pt).headD [] = []) :
    processPlaintext pr pt = .invalidParams := by
  simp only [processPlaintext]
  rw [if_pos h]

theorem processPlaintext_mismatch {P : Type} (pr : Prims P) (pt : List Char)
    (h1 : (splitOnDot pt).headD [] ≠ [])
    (h2 : (splitOnDot pt)[1]? ≠
      some (decodeCalculatedSignature pr ((splitOnDot pt).headD []))) :
    processPlaintext pr pt = .unauthorized := by
  simp only [processPlaintext]
  rw [if_neg h1, if_pos h2]

theorem processPlaintext_atob_none {P : Type} (pr : Prims P) (pt : List Char)
    (h1 : (splitOnDot pt).headD [] ≠ [])
    (h2 : (splitOnDot pt)[1]? =
      some (decodeCalculatedSignature pr ((splitOnDot pt).headD [])))
    (h3 : atob ((splitOnDot pt).headD []) = none) :
    processPlaintext pr pt = .invalidParams := by
  simp only [processPlaintext]
  rw [if_neg h1, if_neg (by simp [h2]), h3]

theorem processPlaintext_parse_none {P : Type} (pr : Prims P) (pt json : List Char)
    (h1 : (splitOnDot pt).headD [] ≠ [])
    (h2 : (splitOnDot pt)[1]? =
      some (decodeCalculatedSignature pr ((splitOnDot pt).headD [])))
    (h3 : atob ((splitOnDot pt).headD []) = some json)
    (h4 : pr.parseJson json = none) :
    processPlaintext pr pt = .invalidParams := by
  simp only [processPlaintext]
  rw [if_neg h1, if_neg (by simp [h2]), h3]
  simp only [h4]

theorem processPlaintext_success {P : Type} (pr : Prims P) (pt json : List Char) (p : P)
    (h1 : (splitOnDot pt).headD [] ≠ [])
    (h2 : (splitOnDot pt)[1]? =
      some (decodeCalculatedSignature pr ((splitOnDot pt).headD [])))
    (h3 : atob ((splitOnDot pt).headD []) = some json)
    (h4 : pr.parseJson json = some p) :
    processPlaintext pr pt = .success p := by
  simp only [processPlaintext]
  rw [if_neg h1, if_neg (by simp [h2]), h3]
  simp only [h4]

theorem processPlaintext_cases {P : Type} (pr : Prims P) (pt : List Char) :
    processPlaintext pr pt = .invalidParams ∨
    processPlaintext pr pt = .unauthorized ∨
    ∃ p, processPlaintext pr pt = .success p := by
  simp only [processPlaintext]
  split
  · exact Or.inl rfl
  split
  · exact Or.inr (Or.inl rfl)
  split
  · exact Or.inl rfl
  split
  · exact Or.inl rfl
  · exact Or.inr (Or.inr ⟨_, rfl⟩)

/-! ### Claim theorems -/

/-- Claim C5 (MissingParams precedence): for every decode request in which the
token field or the context field is absent (`none`) or empty (`some []`, the
only falsy string), decode fails with `MissingParams` at HTTP 400.  The
statement quantifies over every instantiation `pr` of the cryptographic
primitives, so the outcome provably does not depend on any cryptographic
work — none is performed before the check. -/
theorem claim_C5 {P : Type} (pr : Prims P) (t c : Option (List Char))
    (h : t = none ∨ t = some [] ∨ c = none ∨ c = some []) :
    decode pr t c = .missingParams ∧ httpStatus (decode pr t c) = 400 := by
  have hd := decode_missing pr t c h
  exact ⟨hd, by rw [hd]; rfl⟩

theorem claim_C5_witness :
    decode (mkPrims fun _ _ => none) none (some ('y' :: [])) = .missingParams ∧
    httpStatus (decode (mkPrims fun _ _ => none) none (some ('y' :: []))) = 400 :=
  claim_C5 (mkPrims fun _ _ => none) none (some ('y' :: [])) (Or.inl rfl)

/-- Claim C7 (signature-mismatch path): for every decode input that decrypts
successfully and splits into a non-empty `encoded` segment, if the extracted
signature slot differs from the recomputed HMAC then decode fails with exactly
`Unauthorized` at HTTP status 400 (the handler uses
`StatusCode.ClientErrorBadRequest`, not 401), and the payload is never parsed
or returned: verification happens strictly between the split and the parse. -/
theorem claim_C7 {P : Type} (pr : Prims P) (t c pt : List Char)
    (ht : t ≠ []) (hc : c ≠ [])
    (hiv : (bufferFromHex c).length = 16)
    (hdec : pr.decryptAes (bufferFromBase64 t) (bufferFromHex c) = some pt)
    (henc : (splitOnDot pt).headD [] ≠ [])
    (hsig : (splitOnDot pt)[1]? ≠
      some (decodeCalculatedSignature pr ((splitOnDot pt).headD []))) :
    decode pr (some t) (some c) = .unauthorized ∧
    httpStatus (decode pr (some t) (some c)) = 400 := by
  have hd := decode_decrypt_some pr t c pt ht hc hiv hdec
  rw [hd, processPlaintext_mismatch pr pt henc hsig]
  exact ⟨rfl, rfl⟩

theorem claim_C7_witness :
    decode (mkPrims fun _ _ => some (String.data "abc.xyz"))
      (some (String.data "AA")) (some (List.replicate 32 '0')) = .unauthorized ∧
    httpStatus (decode (mkPrims fun _ _ => some (String.data "abc.xyz"))
      (some (String.data "AA")) (some (List.replicate 32 '0'))) = 400 :=
  claim_C7 (mkPrims fun _ _ => some (String.data "abc.xyz"))
    (String.data "AA") (List.replicate 32 '0') (String.data "abc.xyz")
    (by decide) (by decide) (by decide) (by decide) (by decide) (by decide)

/-- Claim C10, counterexample: the claim asserts that every input decrypting
successfully to a plaintext with no `.` yields `Unauthorized`, but the empty
plaintext contains no `.` and yields `InvalidParams` instead: `''.split('.')`
is `['']`, so `encoded` is empty and the `!encoded` check fires before the
signature comparison.  (An empty plaintext is reachable with real AES-CBC: a
single ciphertext block decrypting to sixteen `0x10` padding bytes unpads to
zero bytes.) -/
theorem claim_C10_counterexample :
    (mkPrims fun _ _ => some []).decryptAes
        (bufferFromBase64 (String.data "AA"))
        (bufferFromHex (List.replicate 32 '0')) = some [] ∧
    '.' ∉ ([] : List Char) ∧
    decode (mkPrims fun _ _ => some [])
      (some (String.data "AA")) (some (List.replicate 32 '0')) = .invalidParams ∧
    decode (mkPrims fun _ _ => some [])
      (some (String.data "AA")) (some (List.replicate 32 '0')) ≠ .unauthorized := by
  decide

/-- Claim C10 as amended: for every decode input that decrypts successfully to
a *non-empty* plaintext containing no `.` character at all, the result is
`Unauthorized` (HTTP 400), not `InvalidParams` — the whole plaintext becomes
`encoded`, the signature slot is absent, and the comparison with the
recomputed HMAC necessarily fails.  (The empty plaintext instead yields
`InvalidParams`, because the empty-`encoded` check precedes the signature
comparison.) -/
theorem claim_C10_amended {P : Type} (pr : Prims P) (t c pt : List Char)
    (ht : t ≠ []) (hc : c ≠ [])
    (hiv : (bufferFromHex c).length = 16)
    (hdec : pr.decryptAes (bufferFromBase64 t) (bufferFromHex c) = some pt)
    (hne : pt ≠ []) (hnodot : '.' ∉ pt) :
    decode pr (some t) (some c) = .unauthorized ∧
    httpStatus (decode pr (some t) (some c)) = 400 := by
  have hsplit := splitOnDot_no_dot pt hnodot
  have hd := decode_decrypt_some pr t c pt ht hc hiv hdec
  rw [hd, processPlaintext_mismatch pr pt (by simp [hsplit, hne]) (by simp [hsplit])]
  exact ⟨rfl, rfl⟩

theorem claim_C10_amended_witness :
    decode (mkPrims fun _ _ => some (String.data "abc"))
      (some (String.data "AA")) (some (List.replicate 32 '0')) = .unauthorized ∧
    httpStatus (decode (mkPrims fun _ _ => some (String.data "abc"))
      (some (String.data "AA")) (some (List.replicate 32 '0'))) = 400 :=
  claim_C10_amended (mkPrims fun _ _ => some (String.data "abc"))
    (String.data "AA") (List.replicate 32 '0') (String.data "abc")
    (by decide) (by decide) (by decide) (by decide) (by decide) (by decide)

/-- Claim C8, counterexample: the claim reads the split as `encoded` = text
before the first `.` and `signature` = *the remainder after the first `.`*,
but the handler takes `split('.')[1]` — only the segment between the first
and second `.`.  On the plaintext `QUJD.MAC.junk` (with the toy HMAC `MAC`)
the handler's split accepts the signature and decodes successfully to `ABC`,
while the spec's split yields the signature `MAC.junk`, which mismatches and
would give `Unauthorized`. -/
theorem claim_C8_counterexample :
    processPlaintext (mkPrims fun _ _ => none) (String.data "QUJD.MAC.junk")
        = .success (String.data "ABC") ∧
    processPlaintextSpecSplit (mkPrims fun _ _ => none) (String.data "QUJD.MAC.junk")
        = .unauthorized := by
  decide

/-- Claim C8 as amended: decode splits the decrypted plaintext on *every* `.`;
`encoded` is the text before the first `.` (as the claim says), but
`signature` is `split('.')[1]` — the segment between the first and the second
`.`, i.e. the first segment of the remainder after the first `.`, not the
whole remainder — and decode fails with `InvalidParams` when `encoded` is
empty after splitting. -/
theorem claim_C8_amended {P : Type} (pr : Prims P) (pt : List Char) :
    (splitOnDot pt).headD [] = beforeFirstDot pt ∧
    (splitOnDot pt)[1]? = (afterFirstDot pt).map (fun r => (splitOnDot r).headD []) ∧
    ((splitOnDot pt).headD [] = [] → processPlaintext pr pt = .invalidParams) :=
  ⟨splitOnDot_head pt, splitOnDot_second pt, fun h => processPlaintext_empty pr pt h⟩

theorem claim_C8_amended_witness :
    (splitOnDot (String.data ".x")).headD [] = beforeFirstDot (String.data ".x") ∧
    processPlaintext (mkPrims fun _ _ => none) (String.data ".x") = .invalidParams :=
  ⟨(claim_C8_amended (mkPrims fun _ _ => none) (String.data ".x")).1,
   (claim_C8_amended (mkPrims fun _ _ => none) (String.data ".x")).2.2 (by decide)⟩

/-- Claim C4 (signature byte-level contract): in encode the HMAC is computed
over `Buffer.from(encoded, 'base64')` — the bytes obtained by base64-decoding
the base64 text `encoded`, not the text itself — and decode recomputes the
HMAC over the decoded bytes of its `encoded` segment with the very same
`hmacSig` (same algorithm and signature key).  Moreover the signed block
built by encode splits back so that decode recomputes the signature over
exactly the same `encoded`: its head segment is `encoded` and its second
segment is precisely the signature encode attached. -/
theorem claim_C4 {P : Type} (pr : Prims P) (e : List Char)
    (hdote : '.' ∉ e) (hdots : '.' ∉ encodeSignature pr e) :
    encodeSignature pr e = pr.hmacSig (bufferFromBase64 e) ∧
    decodeCalculatedSignature pr e = pr.hmacSig (bufferFromBase64 e) ∧
    (splitOnDot (signedBlock pr e)).headD [] = e ∧
    (splitOnDot (signedBlock pr e))[1]? = some (decodeCalculatedSignature pr e) := by
  refine ⟨rfl, rfl, ?_, ?_⟩
  · unfold signedBlock
    rw [splitOnDot_sep e _ hdote, splitOnDot_no_dot _ hdots]
    rfl
  · unfold signedBlock
    rw [splitOnDot_sep e _ hdote, splitOnDot_no_dot _ hdots]
    rfl

theorem claim_C4_witness :
    encodeSignature (mkPrims fun _ _ => none) (String.data "QQ==")
        = (mkPrims fun _ _ => none).hmacSig
            (bufferFromBase64 (String.data "QQ==")) ∧
    (splitOnDot (signedBlock (mkPrims fun _ _ => none) (String.data "QQ==")))[1]?
        = some (decodeCalculatedSignature (mkPrims fun _ _ => none) (String.data "QQ==")) :=
  ⟨(claim_C4 (mkPrims fun _ _ => none) (String.data "QQ==") (by decide) (by decide)).1,
   (claim_C4 (mkPrims fun _ _ => none) (String.data "QQ==") (by decide) (by decide)).2.2.2⟩

/-- Claim C6 (InvalidParams conflation, no unstructured escape): with both
fields present and non-empty, every failure inside the handler's `try` block
— an IV that is not 16 bytes after hex decoding (`createDecipheriv` throw),
a decryption failure (bad padding / corrupted ciphertext), a failing `atob`,
or a failing final `JSON.parse` — surfaces as the single error kind
`InvalidParams`.  (`decode` is a total function into `DecodeResult`, which is
the embedding of "no exception escapes the handler unstructured": the
`catch` block converts every throw to `InvalidParams`.)  Base64 decoding of
the token itself never fails (Node's decoder is forgiving), so it
contributes no failure case. -/
theorem claim_C6 {P : Type} (pr : Prims P) (t c : List Char)
    (ht : t ≠ []) (hc : c ≠ []) :
    ((bufferFromHex c).length ≠ 16 →
      decode pr (some t) (some c) = .invalidParams) ∧
    ((bufferFromHex c).length = 16 →
      pr.decryptAes (bufferFromBase64 t) (bufferFromHex c) = none →
      decode pr (some t) (some c) = .invalidParams) ∧
    (∀ pt, (bufferFromHex c).length = 16 →
      pr.decryptAes (bufferFromBase64 t) (bufferFromHex c) = some pt →
      (splitOnDot pt)[1]? = some (decodeCalculatedSignature pr ((splitOnDot pt).headD [])) →
      atob ((splitOnDot pt).headD []) = none →
      decode pr (some t) (some c) = .invalidParams) ∧
    (∀ pt json, (bufferFromHex c).length = 16 →
      pr.decryptAes (bufferFromBase64 t) (bufferFromHex c) = some pt →
      (splitOnDot pt)[1]? = some (decodeCalculatedSignature pr ((splitOnDot pt).headD [])) →
      atob ((splitOnDot pt).headD []) = some json →
      pr.parseJson json = none →
      decode pr (some t) (some c) = .invalidParams) := by
  refine ⟨fun hiv => decode_iv_bad pr t c ht hc hiv,
          fun hiv hd => decode_decrypt_none pr t c ht hc hiv hd,
          fun pt hiv hd hsig hatob => ?_,
          fun pt json hiv hd hsig hatob hparse => ?_⟩
  · rw [decode_decrypt_some pr t c pt ht hc hiv hd]
    by_cases henc : (splitOnDot pt).headD [] = []
    · exact processPlaintext_empty pr pt henc
    · exact processPlaintext_atob_none pr pt henc hsig hatob
  · rw [decode_decrypt_some pr t c pt ht hc hiv hd]
    by_cases henc : (splitOnDot pt).headD [] = []
    · exact processPlaintext_empty pr pt henc
    · exact processPlaintext_parse_none pr pt json henc hsig hatob hparse

theorem claim_C6_witness :
    decode (mkPrims fun _ _ => none)
      (some (String.data "asdf")) (some (String.data "potato")) = .invalidParams :=
  (claim_C6 (mkPrims fun _ _ => none) (String.data "asdf") (String.data "potato")
    (by decide) (by decide)).1 (by decide)

/-- Claim C9, counterexample: the claim asserts encode has no error condition
for any JSON-serializable payload, but a payload whose serialization contains
a character above `U+00FF` (here the single character `Ā`, U+0100) makes
`btoa` throw; the encode handler has no try/catch, so the exception escapes
(modelled as `encode = none`), and the code defines no `SerializationError`
anywhere. -/
theorem claim_C9_counterexample :
    encode (mkPrims fun _ _ => none) (String.data "Ā") (List.replicate 16 0) = none := by
  decide

/-- Claim C9 as amended: encode fails — by an uncaught `btoa` exception, not
by any structured `SerializationError`, which does not exist in the code —
exactly when the serialized payload contains a character whose code point
exceeds 255; for every payload whose serialization is latin1, encode
succeeds.  (A cyclic payload cannot arise through the JSON-parsed request
body, and nothing in the handler would convert its `JSON.stringify` throw
into a structured error either.) -/
theorem claim_C9_amended {P : Type} (pr : Prims P) (body : P) (iv : List Nat) :
    encode pr body iv = none ↔ ∃ ch ∈ pr.stringifyJson body, 255 < ch.toNat := by
  by_cases h : ∀ ch ∈ pr.stringifyJson body, ch.toNat ≤ 255
  · have hb := btoa_eq_some _ h
    simp only [encode, hb]
    constructor
    · intro hx
      exact absurd hx (by simp)
    · rintro ⟨ch, hch, hgt⟩
      have := h ch hch
      omega
  · have hb : btoa (pr.stringifyJson body) = none := by
      unfold btoa
      rw [if_neg]
      intro hall
      rw [List.all_eq_true] at hall
      exact h fun ch hch => by simpa using hall ch hch
    simp only [encode, hb]
    constructor
    · intro _
      push_neg at h
      obtain ⟨ch, hch, hgt⟩ := h
      exact ⟨ch, hch, by omega⟩
    · intro _
      trivial

/-- Claim C1 (round-trip): for every payload whose serialization is non-empty
latin1 text (which `JSON.stringify` guarantees for every JSON value free of
code points above U+00FF; `btoa` would otherwise throw), a fresh 16-byte IV, and
primitives satisfying their contracts — `parseJson` inverts `stringifyJson`
on this payload, the HMAC digest contains no `.` (a base64 digest never
does), and AES-CBC decryption inverts encryption with non-empty byte-valued
ciphertext — `encode` succeeds with HTTP 200 data `(token, context)` and
`decode` on exactly that pair succeeds with HTTP 200 and returns the original
payload, structurally equal. -/
theorem claim_C1 {P : Type} (pr : Prims P) (body : P) (iv : List Nat) (e : List Char)
    (hjson : pr.parseJson (pr.stringifyJson body) = some body)
    (hlatin1 : ∀ ch ∈ pr.stringifyJson body, ch.toNat ≤ 255)
    (hne : pr.stringifyJson body ≠ [])
    (he : btoa (pr.stringifyJson body) = some e)
    (hivlen : iv.length = 16)
    (hivbytes : ∀ b ∈ iv, b < 256)
    (hsig : '.' ∉ encodeSignature pr e)
    (hctbytes : ∀ b ∈ pr.encryptAes (signedBlock pr e) iv, b < 256)
    (hctne : pr.encryptAes (signedBlock pr e) iv ≠ [])
    (hcipher : pr.decryptAes (pr.encryptAes (signedBlock pr e) iv) iv
        = some (signedBlock pr e)) :
    encode pr body iv
        = some (toBase64 (pr.encryptAes (signedBlock pr e) iv), toHex iv) ∧
    decode pr (some (toBase64 (pr.encryptAes (signedBlock pr e) iv))) (some (toHex iv))
        = .success body ∧
    httpStatus (decode pr (some (toBase64 (pr.encryptAes (signedBlock pr e) iv)))
        (some (toHex iv))) = 200 := by
  have heval : toBase64 ((pr.stringifyJson body).map Char.toNat) = e :=
    Option.some.inj ((btoa_eq_some _ hlatin1).symm.trans he)
  have hbytes : ∀ b ∈ (pr.stringifyJson body).map Char.toNat, b < 256 := by
    intro b hb
    obtain ⟨ch, hch, rfl⟩ := List.mem_map.mp hb
    have := hlatin1 ch hch
    omega
  have hdote : '.' ∉ e := heval ▸ toBase64_no_dot _ hbytes
  have hene : e ≠ [] := by
    rw [← heval]
    intro hnil
    rw [toBase64_eq_nil, List.map_eq_nil_iff] at hnil
    exact hne hnil
  have hsplit : splitOnDot (signedBlock pr e) = [e, encodeSignature pr e] := by
    unfold signedBlock
    rw [splitOnDot_sep e _ hdote, splitOnDot_no_dot _ hsig]
  have htok_ne : toBase64 (pr.encryptAes (signedBlock pr e) iv) ≠ [] :=
    fun hnil => hctne ((toBase64_eq_nil _).mp hnil)
  have hctx_ne : toHex iv ≠ [] := by
    intro hnil
    have hl := toHex_length iv
    rw [hnil, hivlen] at hl
    simp at hl
  have hhex : bufferFromHex (toHex iv) = iv := bufferFromHex_toHex iv hivbytes
  have hivlen' : (bufferFromHex (toHex iv)).length = 16 := by rw [hhex]; exact hivlen
  have hb64 : bufferFromBase64 (toBase64 (pr.encryptAes (signedBlock pr e) iv))
      = pr.encryptAes (signedBlock pr e) iv :=
    bufferFromBase64_toBase64 _ hctbytes
  have hdec : pr.decryptAes
      (bufferFromBase64 (toBase64 (pr.encryptAes (signedBlock pr e) iv)))
      (bufferFromHex (toHex iv)) = some (signedBlock pr e) := by
    rw [hb64, hhex]
    exact hcipher
  have hsucc : decode pr (some (toBase64 (pr.encryptAes (signedBlock pr e) iv)))
      (some (toHex iv)) = .success body := by
    rw [decode_decrypt_some pr _ _ _ htok_ne hctx_ne hivlen' hdec]
    apply processPlaintext_success pr _ (pr.stringifyJson body) body
    · rw [hsplit]
      simpa using hene
    · rw [hsplit]
      rfl
    · rw [hsplit]
      show atob e = some (pr.stringifyJson body)
      rw [← heval]
      exact atob_toBase64_map _ hlatin1
    · exact hjson
  refine ⟨by simp only [encode, he], hsucc, by rw [hsucc]; rfl⟩

theorem claim_C1_witness :
    encode (mkPrims fun bs _ => if bs = [7] then some (String.data "QUI=.MAC") else none)
        (String.data "AB") (List.replicate 16 0)
      = some (toBase64 ((mkPrims fun bs _ =>
          if bs = [7] then some (String.data "QUI=.MAC") else none).encryptAes
            (signedBlock (mkPrims fun bs _ =>
              if bs = [7] then some (String.data "QUI=.MAC") else none)
              (String.data "QUI=")) (List.replicate 16 0)), toHex (List.replicate 16 0)) ∧
    decode (mkPrims fun bs _ => if bs = [7] then some (String.data "QUI=.MAC") else none)
        (some (toBase64 ((mkPrims fun bs _ =>
          if bs = [7] then some (String.data "QUI=.MAC") else none).encryptAes
            (signedBlock (mkPrims fun bs _ =>
              if bs = [7] then some (String.data "QUI=.MAC") else none)
              (String.data "QUI=")) (List.replicate 16 0))))
        (some (toHex (List.replicate 16 0)))
      = .success (String.data "AB") ∧
    httpStatus (decode (mkPrims fun bs _ =>
        if bs = [7] then some (String.data "QUI=.MAC") else none)
        (some (toBase64 ((mkPrims fun bs _ =>
          if bs = [7] then some (String.data "QUI=.MAC") else none).encryptAes
            (signedBlock (mkPrims fun bs _ =>
              if bs = [7] then some (String.data "QUI=.MAC") else none)
              (String.data "QUI=")) (List.replicate 16 0))))
        (some (toHex (List.replicate 16 0)))) = 200 :=
  claim_C1 (mkPrims fun bs _ => if bs = [7] then some (String.data "QUI=.MAC") else none)
    (String.data "AB") (List.replicate 16 0) (String.data "QUI=")
    (by decide) (by decide) (by decide) (by decide) (by decide) (by decide)
    (by decide) (by decide) (by decide) (by decide)

/-- Shared helper for the tampering claims: whenever the round-tripped
buffers decode back to the given ciphertext and IV, and no successful
decryption of that ciphertext under that IV carries a signature slot equal
to the recomputed HMAC, the decode handler answers `InvalidParams`
(decryption failed) or `Unauthorized` (signature mismatch) at HTTP 400 — and
in particular never `success`. -/
theorem decode_hmac_rejects {P : Type} (pr : Prims P) (ct iv : List Nat)
    (hctbytes : ∀ b ∈ ct, b < 256) (hctne : ct ≠ [])
    (hivlen : iv.length = 16) (hivbytes : ∀ b ∈ iv, b < 256)
    (hint : ∀ pt, pr.decryptAes ct iv = some pt →
      (splitOnDot pt)[1]? ≠
        some (decodeCalculatedSignature pr ((splitOnDot pt).headD []))) :
    (decode pr (some (toBase64 ct)) (some (toHex iv)) = .invalidParams ∨
     decode pr (some (toBase64 ct)) (some (toHex iv)) = .unauthorized) ∧
    httpStatus (decode pr (some (toBase64 ct)) (some (toHex iv))) = 400 := by
  have htok_ne : toBase64 ct ≠ [] := fun hnil => hctne ((toBase64_eq_nil _).mp hnil)
  have hctx_ne : toHex iv ≠ [] := by
    intro hnil
    have hl := toHex_length iv
    rw [hnil, hivlen] at hl
    simp at hl
  have hhex : bufferFromHex (toHex iv) = iv := bufferFromHex_toHex iv hivbytes
  have hivlen' : (bufferFromHex (toHex iv)).length = 16 := by rw [hhex]; exact hivlen
  have hb64 : bufferFromBase64 (toBase64 ct) = ct := bufferFromBase64_toBase64 _ hctbytes
  rcases hd : pr.decryptAes ct iv with _ | pt
  · have hres : decode pr (some (toBase64 ct)) (some (toHex iv)) = .invalidParams :=
      decode_decrypt_none pr _ _ htok_ne hctx_ne hivlen' (by rw [hb64, hhex]; exact hd)
    exact ⟨Or.inl hres, by rw [hres]; rfl⟩
  · have hps := decode_decrypt_some pr _ _ pt htok_ne hctx_ne hivlen'
      (by rw [hb64, hhex]; exact hd)
    by_cases henc : (splitOnDot pt).headD [] = []
    · have hres : decode pr (some (toBase64 ct)) (some (toHex iv)) = .invalidParams := by
        rw [hps]
        exact processPlaintext_empty pr pt henc
      exact ⟨Or.inl hres, by rw [hres]; rfl⟩
    · have hres : decode pr (some (toBase64 ct)) (some (toHex iv)) = .unauthorized := by
        rw [hps]
        exact processPlaintext_mismatch pr pt henc (hint pt hd)
      exact ⟨Or.inr hres, by rw [hres]; rfl⟩

/-- Claim C2 (tamper detection): take a valid `(token, context)` pair
produced by encode for some payload, and flip a single byte of the token's
ciphertext (position `i` replaced by a different byte value `v`).  Under the
integrity contract of the external AES-CBC + HMAC-SHA256 primitives —
expressed as the hypothesis `hint`, that no successful decryption of the
tampered ciphertext under the original IV carries a signature slot equal to
the HMAC recomputed from its own `encoded` segment (tampering garbles the
plaintext, and producing a matching HMAC for it would be a forgery/collision)
— decode on the tampered token with the original context fails with
`InvalidParams` (corrupted padding) or `Unauthorized` (signature mismatch) at
HTTP 400, and never succeeds. -/
theorem claim_C2 {P : Type} (pr : Prims P) (body : P) (iv : List Nat) (e : List Char)
    (i v : Nat)
    (he : btoa (pr.stringifyJson body) = some e)
    (hivlen : iv.length = 16) (hivbytes : ∀ b ∈ iv, b < 256)
    (hctbytes : ∀ b ∈ pr.encryptAes (signedBlock pr e) iv, b < 256)
    (hi : i < (pr.encryptAes (signedBlock pr e) iv).length)
    (hv : v ≠ (pr.encryptAes (signedBlock pr e) iv).getD i 0)
    (hv256 : v < 256)
    (hint : ∀ pt,
      pr.decryptAes ((pr.encryptAes (signedBlock pr e) iv).set i v) iv = some pt →
      (splitOnDot pt)[1]? ≠
        some (decodeCalculatedSignature pr ((splitOnDot pt).headD []))) :
    (decode pr (some (toBase64 ((pr.encryptAes (signedBlock pr e) iv).set i v)))
        (some (toHex iv)) = .invalidParams ∨
     decode pr (some (toBase64 ((pr.encryptAes (signedBlock pr e) iv).set i v)))
        (some (toHex iv)) = .unauthorized) ∧
    httpStatus (decode pr (some (toBase64 ((pr.encryptAes (signedBlock pr e) iv).set i v)))
        (some (toHex iv))) = 400 := by
  have hct'bytes : ∀ b ∈ (pr.encryptAes (signedBlock pr e) iv).set i v, b < 256 := by
    intro b hb
    rcases List.mem_or_eq_of_mem_set hb with hmem | rfl
    · exact hctbytes b hmem
    · exact hv256
  have hct'ne : (pr.encryptAes (signedBlock pr e) iv).set i v ≠ [] := by
    intro hnil
    have hl : ((pr.encryptAes (signedBlock pr e) iv).set i v).length
        = (pr.encryptAes (signedBlock pr e) iv).length := List.length_set ..
    rw [hnil] at hl
    simp at hl
    omega
  exact decode_hmac_rejects pr _ iv hct'bytes hct'ne hivlen hivbytes hint

theorem claim_C2_witness :
    (decode (mkPrims fun _ _ => none)
        (some (toBase64 (((mkPrims fun _ _ => none).encryptAes
          (signedBlock (mkPrims fun _ _ => none) (String.data "QUI="))
          (List.replicate 16 0)).set 0 8)))
        (some (toHex (List.replicate 16 0))) = .invalidParams ∨
     decode (mkPrims fun _ _ => none)
        (some (toBase64 (((mkPrims fun _ _ => none).encryptAes
          (signedBlock (mkPrims fun _ _ => none) (String.data "QUI="))
          (List.replicate 16 0)).set 0 8)))
        (some (toHex (List.replicate 16 0))) = .unauthorized) ∧
    httpStatus (decode (mkPrims fun _ _ => none)
        (some (toBase64 (((mkPrims fun _ _ => none).encryptAes
          (signedBlock (mkPrims fun _ _ => none) (String.data "QUI="))
          (List.replicate 16 0)).set 0 8)))
        (some (toHex (List.replicate 16 0)))) = 400 :=
  claim_C2 (mkPrims fun _ _ => none) (String.data "AB") (List.replicate 16 0)
    (String.data "QUI=") 0 8
    (by decide) (by decide) (by decide) (by decide) (by decide) (by decide)
    (by decide) (fun pt h => nomatch h)

/-- Claim C3 (context binding): take two encode calls — payload `bodyA` under
IV `ivA` and payload `bodyB` under IV `ivB` — whose contexts differ.  Under
the cross-IV integrity contract of the external AES-CBC + HMAC-SHA256
primitives — hypothesis `hint`: no successful decryption of A's ciphertext
under B's IV carries a signature slot equal to the HMAC recomputed from its
own `encoded` segment (decrypting under the wrong IV garbles the first
plaintext block, and a matching HMAC for the garbled block would be a
forgery/collision) — decode on `(tokenA, contextB)` fails with
`InvalidParams` or `Unauthorized` at HTTP 400, and never silently succeeds. -/
theorem claim_C3 {P : Type} (pr : Prims P) (bodyA bodyB : P) (ivA ivB : List Nat)
    (eA eB : List Char)
    (heA : btoa (pr.stringifyJson bodyA) = some eA)
    (heB : btoa (pr.stringifyJson bodyB) = some eB)
    (hivAlen : ivA.length = 16) (hivBlen : ivB.length = 16)
    (hivBbytes : ∀ b ∈ ivB, b < 256)
    (hctbytes : ∀ b ∈ pr.encryptAes (signedBlock pr eA) ivA, b < 256)
    (hctne : pr.encryptAes (signedBlock pr eA) ivA ≠ [])
    (hctx : toHex ivA ≠ toHex ivB)
    (hint : ∀ pt,
      pr.decryptAes (pr.encryptAes (signedBlock pr eA) ivA) ivB = some pt →
      (splitOnDot pt)[1]? ≠
        some (decodeCalculatedSignature pr ((splitOnDot pt).headD []))) :
    (decode pr (some (toBase64 (pr.encryptAes (signedBlock pr eA) ivA)))
        (some (toHex ivB)) = .invalidParams ∨
     decode pr (some (toBase64 (pr.encryptAes (signedBlock pr eA) ivA)))
        (some (toHex ivB)) = .unauthorized) ∧
    httpStatus (decode pr (some (toBase64 (pr.encryptAes (signedBlock pr eA) ivA)))
        (some (toHex ivB))) = 400 :=
  decode_hmac_rejects pr _ ivB hctbytes hctne hivBlen hivBbytes hint

theorem claim_C3_witness :
    (decode (mkPrims fun _ _ => none)
        (some (toBase64 ((mkPrims fun _ _ => none).encryptAes
          (signedBlock (mkPrims fun _ _ => none) (String.data "QUI="))
          (List.replicate 16 0))))
        (some (toHex (List.replicate 16 1))) = .invalidParams ∨
     decode (mkPrims fun _ _ => none)
        (some (toBase64 ((mkPrims fun _ _ => none).encryptAes
          (signedBlock (mkPrims fun _ _ => none) (String.data "QUI="))
          (List.replicate 16 0))))
        (some (toHex (List.replicate 16 1))) = .unauthorized) ∧
    httpStatus (decode (mkPrims fun _ _ => none)
        (some (toBase64 ((mkPrims fun _ _ => none).encryptAes
          (signedBlock (mkPrims fun _ _ => none) (String.data "QUI="))
          (List.replicate 16 0))))
        (some (toHex (List.replicate 16 1)))) = 400 :=
  claim_C3 (mkPrims fun _ _ => none) (String.data "AB") (String.data "AB")
    (List.replicate 16 0) (List.replicate 16 1)
    (String.data "QUI=") (String.data "QUI=")
    (by decide) (by decide) (by decide) (by decide) (by decide) (by decide)
    (by decide) (by decide) (fun pt h => nomatch h)
